import Mathlib

/-!
Verification development for the pyPESTO parameter-estimation toolbox.

The repository material consists of packaging configuration, documentation
and example notebooks; the `pypesto` package code itself (the `Problem`,
`Objective`, `Result` containers, the multi-start driver `optimize.minimize`,
the engines, the profile routine, HDF5 storage, and the dynesty wrapper) is
not part of the provided sources.  The definitions below therefore model
those components from the specification and the behaviour documented in the
notebooks, at the level of detail the documentation fixes: parameter vectors
are lists of rationals, floating-point values are abstracted into "finite
rational or non-finite", and external serialisation machinery (HDF5, dill)
is modelled as faithful structured storage.
-/

namespace PyPesto

/-- Modelled from the spec: an IEEE floating-point scalar, abstracted as
either a finite rational number or a non-finite value (`inf`/`nan`).  The
documented behaviours only ever order finite values and test finiteness, so
no further structure of floats is needed. -/
inductive FpVal where
  | finite (q : ℚ)
  | nonfinite
  deriving DecidableEq, Repr

/-- Finiteness test on an abstracted float. -/
def FpVal.isFinite : FpVal → Bool
  | .finite _ => true
  | .nonfinite => false

/-- Comparison used when sorting objective values: finite values compare by
their rational value, non-finite values (failed starts, `fval = inf`) sort
after every finite one. -/
def fpLeB : FpVal → FpVal → Bool
  | .finite a, .finite b => decide (a ≤ b)
  | .finite _, .nonfinite => true
  | .nonfinite, .finite _ => false
  | .nonfinite, .nonfinite => true

theorem fpLeB_total (a b : FpVal) : fpLeB a b = true ∨ fpLeB b a = true := by
  cases a with
  | nonfinite =>
    cases b with
    | nonfinite => exact Or.inl rfl
    | finite qb => exact Or.inr rfl
  | finite qa =>
    cases b with
    | nonfinite => exact Or.inl rfl
    | finite qb =>
      rcases le_total qa qb with h | h
      · exact Or.inl (by simpa [fpLeB] using h)
      · exact Or.inr (by simpa [fpLeB] using h)

theorem fpLeB_trans {a b c : FpVal} (hab : fpLeB a b = true)
    (hbc : fpLeB b c = true) : fpLeB a c = true := by
  cases a <;> cases b <;> cases c <;> simp_all [fpLeB]
  exact le_trans hab hbc

/-- Modelled from the spec: the `pypesto.Problem` container, reduced to the
bookkeeping the notebooks document — the full dimension, the indices and
values of fixed parameters, and the objective (value and gradient callables
on full-length parameter vectors). -/
structure Problem where
  dim_full : ℕ
  x_fixed_indices : List ℕ
  x_fixed_vals : List ℚ
  obj_fval : List ℚ → FpVal
  obj_grad : List ℚ → List FpVal

/-- Modelled from the spec: the free (estimated) parameter indices of a
problem — the indices below `dim_full` that are not fixed, in order. -/
def Problem.x_free_indices (p : Problem) : List ℕ :=
  (List.range p.dim_full).filter (fun i => decide (i ∉ p.x_fixed_indices))

/-- Modelled from the spec: `Problem.get_reduced_vector`, the helper that maps
a full-length vector to "the reduced vector with only free (estimated)
parameters" (gradient-check notebook), taking the entries at the free indices
in order. -/
def Problem.get_reduced_vector (p : Problem) (x_full : List ℚ) : List ℚ :=
  p.x_free_indices.map (fun i => x_full.getD i 0)

/-- Modelled from the spec: `Problem.get_full_vector`, the inverse direction —
a full-length vector assembled from a reduced vector by inserting each fixed
parameter's stored value at its fixed index and filling the free positions
from the reduced vector in order. -/
def Problem.get_full_vector (p : Problem) (x_red : List ℚ) : List ℚ :=
  (List.range p.dim_full).map (fun i =>
    match List.lookup i (p.x_fixed_indices.zip p.x_fixed_vals) with
    | some v => v
    | none => x_red.getD (p.x_free_indices.indexOf i) 0)

/-- Modelled from the spec: `Problem.fix_parameters` for a single parameter —
fixing parameter `i` at value `v` records the pair in front of the fixed
lists, so that it takes precedence over any earlier value for `i`. -/
def Problem.fix_parameter (p : Problem) (i : ℕ) (v : ℚ) : Problem :=
  { p with
    x_fixed_indices := i :: p.x_fixed_indices
    x_fixed_vals := v :: p.x_fixed_vals }

/-- Modelled from the spec: `Objective.check_grad` as called through a
problem, which accepts a parameter vector only when its dimension matches the
number of free parameters (the notebook notes that a vector still containing
fixed parameters provokes "an error due to the dimension mismatch"); on a
matching vector it evaluates the gradient at the corresponding full vector. -/
def Problem.check_grad (p : Problem) (x : List ℚ) : Option (List FpVal) :=
  if x.length = p.x_free_indices.length then
    some (p.obj_grad (p.get_full_vector x))
  else
    none

/-- Modelled from the spec: the result of one local optimization start — the
final parameter vector and its objective function value (`fval`, non-finite
for failed starts), plus the start's index as metadata. -/
structure OptimizerResult where
  start_index : ℕ
  x : List ℚ
  fval : FpVal
  deriving DecidableEq, Repr

/-- Ordering of per-start results by objective value. -/
def byFval (a b : OptimizerResult) : Prop := fpLeB a.fval b.fval = true

instance : DecidableRel byFval := fun _ _ => decEq _ _

instance : IsTotal OptimizerResult byFval := ⟨fun a b => fpLeB_total a.fval b.fval⟩

instance : IsTrans OptimizerResult byFval := ⟨fun _ _ _ => fpLeB_trans⟩

/-- Modelled from the spec: `OptimizeResult.sort`, which orders the collected
per-start results "by objective value at the end" of a multi-start run. -/
def OptimizeResult.sort (l : List OptimizerResult) : List OptimizerResult :=
  List.insertionSort byFval l

/-- Modelled from the spec: the outcome of executing one local optimization
start — either a successful optimizer result or a failure (e.g. an exception
in the optimizer) carrying a message. -/
inductive StartOutcome where
  | success (r : OptimizerResult)
  | failure (msg : String)
  deriving DecidableEq, Repr

/-- Whether a start outcome is a failure. -/
def StartOutcome.isFailure : StartOutcome → Bool
  | .success _ => false
  | .failure _ => true

/-- Modelled from the spec: the result entry recorded for a failed start when
failures are allowed — the run is kept in the collected list with a
non-finite objective value. -/
def failedStartResult (idx : ℕ) : OptimizerResult :=
  { start_index := idx, x := [], fval := .nonfinite }

/-- Modelled from the spec: collection of start outcomes under the
`allow_failed_starts` option — a failing start aborts the whole run with an
error when the option is off, and is otherwise recorded (with non-finite
`fval`) while the remaining starts stay in the result. -/
def collectStarts (allow_failed_starts : Bool) :
    List (ℕ × StartOutcome) → Except String (List OptimizerResult)
  | [] => .ok []
  | (idx, o) :: rest =>
    match o with
    | .success r => (collectStarts allow_failed_starts rest).map (r :: ·)
    | .failure msg =>
      if allow_failed_starts then
        (collectStarts allow_failed_starts rest).map (failedStartResult idx :: ·)
      else
        .error msg

/-- Modelled from the spec: `SingleCoreEngine`, which executes the
independent per-start tasks sequentially in order. -/
def SingleCoreEngine.execute {α β : Type} (run : α → β) (tasks : List α) :
    List β :=
  tasks.map run

/-- Contiguous chunks of at most `k + 1` elements, in order: the work
distribution a process pool applies to an ordered task list. -/
def chunksOf {α : Type} (k : ℕ) : List α → List (List α)
  | [] => []
  | x :: xs => (x :: xs.take k) :: chunksOf k (xs.drop k)
termination_by l => l.length
decreasing_by simp [List.length_drop]; omega

/-- Modelled from the spec: `MultiProcessEngine`, the "standard
embarrassingly-parallel task dispatch" — tasks are split into chunks handed
to worker processes, each worker evaluates its chunk independently, and the
results are reassembled in task order. -/
def MultiProcessEngine.execute {α β : Type} (chunk_size : ℕ) (run : α → β)
    (tasks : List α) : List β :=
  ((chunksOf chunk_size tasks).map (List.map run)).flatten

/-- Modelled from the spec: `optimize.minimize` on a fixed list of
startpoints — each start is executed independently by the engine (the result
of a start is a function of its own startpoint only), and the collected
results are sorted by objective value at the end. -/
def minimizeWith (execute : (List ℚ → OptimizerResult) → List (List ℚ) →
    List OptimizerResult) (run : List ℚ → OptimizerResult)
    (startpoints : List (List ℚ)) : List OptimizerResult :=
  OptimizeResult.sort (execute run startpoints)

/-- Modelled from the spec: the configurable startpoint-checking options of a
problem's startpoint method (`startpoint_kwargs` in the PEtab import
notebook): resample candidate startpoints whose objective function
(`check_fval`) or gradient (`check_grad`) is non-finite. -/
structure StartpointOptions where
  check_fval : Bool
  check_grad : Bool
  deriving DecidableEq, Repr

/-- Whether a candidate startpoint passes the enabled finiteness checks:
when `check_fval` is enabled its objective value must be finite, and when
`check_grad` is enabled every gradient entry must be finite. -/
def passesChecks (p : Problem) (opts : StartpointOptions) (x : List ℚ) :
    Bool :=
  (!opts.check_fval || (p.obj_fval x).isFinite) &&
    (!opts.check_grad || (p.obj_grad x).all FpVal.isFinite)

/-- Modelled from the spec: `Problem.get_startpoints` with checking enabled —
candidate points are drawn from the sampler stream `propose` in order,
candidates failing an enabled check are "discarded and resampled", and the
first `n_starts` passing candidates are returned; `none` when the first
`fuel` proposals do not contain enough passing candidates (the real loop
keeps resampling, so a successful return is the case the documentation
describes). -/
def Problem.get_startpoints (p : Problem) (opts : StartpointOptions)
    (n_starts : ℕ) (propose : ℕ → List ℚ) (fuel : ℕ) :
    Option (List (List ℚ)) :=
  let accepted :=
    (((List.range fuel).map propose).filter (passesChecks p opts)).take n_starts
  if accepted.length = n_starts then some accepted else none

/-- Modelled from the spec: what one call of a pyPESTO objective returns for
a requested set of sensitivity orders — the objective value when order 0 is
requested, the gradient when order 1 is requested, and the Hessian when
order 2 is requested. -/
structure ObjectiveValue where
  fval : Option ℚ
  grad : Option (List ℚ)
  hess : Option (List (List ℚ))
  deriving DecidableEq, Repr

/-- Modelled from the spec: a `pypesto.Objective` "defined through callables"
— separate functions `fun`, `grad`, `hess` for value, gradient and Hessian;
a call evaluates exactly the callables for the requested sensitivity
orders. -/
def Objective.callSeparated (f : List ℚ → ℚ) (g : List ℚ → List ℚ)
    (h : List ℚ → List (List ℚ)) (x : List ℚ) (sensi_orders : List ℕ) :
    ObjectiveValue :=
  { fval := if 0 ∈ sensi_orders then some (f x) else none
    grad := if 1 ∈ sensi_orders then some (g x) else none
    hess := if 2 ∈ sensi_orders then some (h x) else none }

/-- Modelled from the spec: a `pypesto.Objective` built from "a function that
returns objective value, gradient and hessian all as a tuple", flagged with
`grad=True, hess=True`; a call evaluates the single callable and picks the
tuple components for the requested sensitivity orders. -/
def Objective.callCombined (fgh : List ℚ → ℚ × List ℚ × List (List ℚ))
    (x : List ℚ) (sensi_orders : List ℕ) : ObjectiveValue :=
  { fval := if 0 ∈ sensi_orders then some (fgh x).1 else none
    grad := if 1 ∈ sensi_orders then some (fgh x).2.1 else none
    hess := if 2 ∈ sensi_orders then some (fgh x).2.2 else none }

/-- Modelled from the spec: one parameter's profile in a `ProfileResult` —
the path of full parameter vectors along the profile and the re-optimized
objective values along it. -/
structure ProfilerResult where
  x_path : List (List ℚ)
  fval_path : List FpVal
  deriving DecidableEq, Repr

/-- Modelled from the spec: the sampling part of a result — the chains of
parameter vectors and the corresponding negative log-posterior trace. -/
structure SampleResult where
  trace_x : List (List ℚ)
  trace_neglogpost : List FpVal
  deriving DecidableEq, Repr

/-- Modelled from the spec: the serialisable, objective-free part of a
problem — what `write_result` persists of it ("the problem is not fully
saved into hdf5, as a big part of the problem is the objective function"). -/
structure ProblemData where
  dim_full : ℕ
  x_fixed_indices : List ℕ
  x_fixed_vals : List ℚ
  deriving DecidableEq, Repr

/-- The serialisable data of a problem: everything but the objective. -/
def Problem.toData (p : Problem) : ProblemData :=
  { dim_full := p.dim_full
    x_fixed_indices := p.x_fixed_indices
    x_fixed_vals := p.x_fixed_vals }

/-- A placeholder objective, evaluable nowhere: what a problem read back from
storage carries, since "after loading the result object, we cannot evaluate
the objective function anymore". -/
def dummyObjectiveFval : List ℚ → FpVal := fun _ => .nonfinite

/-- A placeholder gradient, evaluable nowhere (see `dummyObjectiveFval`). -/
def dummyObjectiveGrad : List ℚ → List FpVal := fun _ => []

/-- Reconstruction of a problem from its stored data, with the placeholder
objective. -/
def ProblemData.toProblem (d : ProblemData) : Problem :=
  { dim_full := d.dim_full
    x_fixed_indices := d.x_fixed_indices
    x_fixed_vals := d.x_fixed_vals
    obj_fval := dummyObjectiveFval
    obj_grad := dummyObjectiveGrad }

/-- Modelled from the spec: the `pypesto.Result` object, holding the problem
and the optimization, profiling and sampling results. -/
structure Result where
  problem : Problem
  optimize_result : List OptimizerResult
  profile_result : List ProfilerResult
  sample_result : SampleResult

/-- Modelled from the spec: the contents of an HDF5 result file — one group
per result part, each present when the corresponding part was selected for
writing; the problem group holds only the objective-free problem data. -/
structure HDF5ResultFile where
  problem_group : Option ProblemData
  optimize_group : Option (List OptimizerResult)
  profile_group : Option (List ProfilerResult)
  sample_group : Option SampleResult
  deriving DecidableEq, Repr

/-- Modelled from the spec: `pypesto.store.write_result` — writes the chosen
parts of the result object to an HDF5 file ("Choose which parts of the
result object to save with corresponding booleans"); the objective function
itself is not persisted. -/
def write_result (r : Result) (problem optimize profile sample : Bool) :
    HDF5ResultFile :=
  { problem_group := if problem then some r.problem.toData else none
    optimize_group := if optimize then some r.optimize_result else none
    profile_group := if profile then some r.profile_result else none
    sample_group := if sample then some r.sample_result else none }

/-- Modelled from the spec: `pypesto.store.read_result` — loads a result
object back from an HDF5 file, with empty parts for absent groups and a
problem whose objective is a non-evaluable placeholder. -/
def read_result (f : HDF5ResultFile) : Result :=
  { problem := (f.problem_group.getD
      { dim_full := 0, x_fixed_indices := [], x_fixed_vals := [] }).toProblem
    optimize_result := f.optimize_group.getD []
    profile_result := f.profile_group.getD []
    sample_result := f.sample_group.getD { trace_x := [], trace_neglogpost := [] } }

/-- Modelled from the spec: one point of a likelihood profile for parameter
`i` at grid value `v` — the profiled parameter is fixed at `v` and the
objective is re-optimized over all remaining free parameters; `inner_opt` is
the (arbitrary) local optimizer producing the reduced vector of the
re-optimization, and the returned point is the corresponding full vector. -/
def profilePoint (p : Problem) (i : ℕ) (v : ℚ)
    (inner_opt : Problem → List ℚ) : List ℚ :=
  let fixed := p.fix_parameter i v
  fixed.get_full_vector (inner_opt fixed)

/-- Modelled from the spec: `profile.parameter_profile` for one parameter
index — "re-optimizing over all but one parameter at fixed values of that
parameter": each grid value yields one profile point, with its re-optimized
objective value. -/
def parameter_profile (p : Problem) (i : ℕ) (grid : List ℚ)
    (inner_opt : Problem → List ℚ) : ProfilerResult :=
  { x_path := grid.map (fun v => profilePoint p i v inner_opt)
    fval_path := grid.map (fun v => p.obj_fval (profilePoint p i v inner_opt)) }

/-- Modelled from the spec: the stem of an HDF5 output filename — the name
with a trailing `.hdf5` extension removed. -/
def fileStem (filename : String) : String :=
  if ".hdf5".data.isSuffixOf filename.data then
    ⟨filename.data.take (filename.data.length - 5)⟩
  else
    filename

/-- Modelled from the spec: the name of the per-start sub-file for start
index `idx` when the output file is `filename` — a file
`stem/stem_idx.hdf5` inside a folder named after the stem of the output
filename. -/
def subFileName (filename : String) (idx : ℕ) : String :=
  fileStem filename ++ "/" ++ fileStem filename ++ "_" ++ Nat.repr idx
    ++ ".hdf5"

/-- Modelled from the spec: what the storage layer puts on disk when a
parallelization engine writes to an HDF5 output file — a folder of per-start
sub-files keyed by start index, and a parent file holding the combined
result as a list of links (start indices) into that folder. -/
structure StoredRun where
  parent_links : Option (List ℕ)
  folder : List (ℕ × OptimizerResult)
  deriving DecidableEq, Repr

/-- Modelled from the spec: writing a multi-start result through a
parallelization engine — each start's result goes to its own sub-file in the
folder, and the parent file stores the combined result by linking to every
sub-file. -/
def writeWithEngine (results : List OptimizerResult) : StoredRun :=
  let folder := results.enum
  { parent_links := some (folder.map Prod.fst), folder := folder }

/-- Lookup of a sub-file in the folder by start index. -/
def folderLookup (folder : List (ℕ × OptimizerResult)) (idx : ℕ) :
    Option OptimizerResult :=
  (folder.find? (fun e => decide (e.1 = idx))).map Prod.snd

/-- Resolution of a list of parent-file links against the folder: `none` as
soon as one linked sub-file is missing. -/
def readLinks (folder : List (ℕ × OptimizerResult)) :
    List ℕ → Option (List OptimizerResult)
  | [] => some []
  | l :: ls =>
    match folderLookup folder l, readLinks folder ls with
    | some r, some rest => some (r :: rest)
    | _, _ => none

/-- Modelled from the spec: reading the combined result from the parent
file — it resolves the parent's links through the sub-file folder, so it
"ceases to function" when linked sub-files are gone. -/
def readCombined (sr : StoredRun) : Option (List OptimizerResult) :=
  sr.parent_links.bind (readLinks sr.folder)

/-- Deleting the sub-file folder while keeping the parent file. -/
def deleteFolder (sr : StoredRun) : StoredRun :=
  { sr with folder := [] }

/-- Modelled from the spec: the state of the internal `dynesty` sampler — the
nested samples it produced and their log-weights. -/
structure DynestyInternalSampler where
  samples : List (List ℚ)
  logwt : List ℚ
  deriving DecidableEq, Repr

/-- Modelled from the spec: the on-disk representation (a `dill` file) of a
saved internal dynesty sampler. -/
def DynestyFile : Type := List (List ℚ) × List ℚ

/-- Serialisation of the internal sampler into the saved file. -/
def DynestyInternalSampler.encode (st : DynestyInternalSampler) :
    DynestyFile :=
  (st.samples, st.logwt)

/-- Deserialisation of a saved file back into an internal sampler. -/
def DynestyFile.decode (f : DynestyFile) : DynestyInternalSampler :=
  { samples := f.1, logwt := f.2 }

/-- Modelled from the spec: the `DynestySampler` wrapper — it owns an
internal dynesty sampler once sampling has run (`none` on a fresh object)
together with wrapper-level configuration that is not part of the saved
sampler state. -/
structure DynestySampler where
  internal : Option DynestyInternalSampler
  run_kwargs : List (String × ℚ)

/-- Modelled from the spec: `DynestySampler.save_internal_sampler` — writes
the internal sampler to a file; nothing to write on a fresh sampler. -/
def DynestySampler.save_internal_sampler (s : DynestySampler) :
    Option DynestyFile :=
  s.internal.map DynestyInternalSampler.encode

/-- Modelled from the spec: `DynestySampler.restore_internal_sampler` —
loads the saved internal sampler into this sampler object. -/
def DynestySampler.restore_internal_sampler (s : DynestySampler)
    (f : DynestyFile) : DynestySampler :=
  { s with internal := some f.decode }

/-- Modelled from the spec: the raw nested samples of the internal sampler,
presented as an MCMC-like trace. -/
def DynestyInternalSampler.originalTrace (st : DynestyInternalSampler) :
    SampleResult :=
  { trace_x := st.samples
    trace_neglogpost := st.logwt.map (fun w => FpVal.finite (-w)) }

/-- Modelled from the spec: the deterministic importance resampling the
wrapper applies to obtain MCMC-like samples — the nested samples of maximal
log-weight, in order. -/
def DynestyInternalSampler.resampledTrace (st : DynestyInternalSampler) :
    SampleResult :=
  let m := st.logwt.foldr max 0
  let kept := (st.samples.zip st.logwt).filter (fun sw => decide (m ≤ sw.2))
  { trace_x := kept.map Prod.fst
    trace_neglogpost := kept.map (fun sw => FpVal.finite (-sw.2)) }

/-- Modelled from the spec: `DynestySampler.get_original_samples` — the raw
sample results of the internal dynesty sampler. -/
def DynestySampler.get_original_samples (s : DynestySampler) :
    Option SampleResult :=
  s.internal.map DynestyInternalSampler.originalTrace

/-- Modelled from the spec: `DynestySampler.get_samples` — the resampled
MCMC-like samples of the internal dynesty sampler. -/
def DynestySampler.get_samples (s : DynestySampler) : Option SampleResult :=
  s.internal.map DynestyInternalSampler.resampledTrace

/-! Helper lemmas shared by the claim theorems. -/

theorem chunksOf_flatten_of_le {α : Type} (k n : ℕ) :
    ∀ l : List α, l.length ≤ n → (chunksOf k l).flatten = l := by
  induction n with
  | zero =>
    intro l hl
    cases l with
    | nil => simp [chunksOf]
    | cons x xs => simp at hl
  | succ n ih =>
    intro l hl
    cases l with
    | nil => simp [chunksOf]
    | cons x xs =>
      have hd : (List.drop k xs).length ≤ n := by
        simp only [List.length_cons] at hl
        simp only [List.length_drop]
        omega
      rw [chunksOf, List.flatten_cons, ih (xs.drop k) hd, List.cons_append,
        List.take_append_drop]

theorem chunksOf_flatten {α : Type} (k : ℕ) (l : List α) :
    (chunksOf k l).flatten = l :=
  chunksOf_flatten_of_le k l.length l le_rfl

theorem folderLookup_cons_self (e : ℕ × OptimizerResult)
    (folder : List (ℕ × OptimizerResult)) :
    folderLookup (e :: folder) e.1 = some e.2 := by
  unfold folderLookup
  rw [List.find?_cons_of_pos _ (by simp)]
  rfl

theorem folderLookup_of_mem (folder : List (ℕ × OptimizerResult))
    (hnd : (folder.map Prod.fst).Nodup) (e : ℕ × OptimizerResult)
    (he : e ∈ folder) : folderLookup folder e.1 = some e.2 := by
  induction folder with
  | nil => cases he
  | cons hd tl ih =>
    rcases List.mem_cons.mp he with he | he
    · subst he; exact folderLookup_cons_self e tl
    · have hne : hd.1 ≠ e.1 := fun hc =>
        (List.nodup_cons.mp hnd).1 (hc ▸ List.mem_map_of_mem Prod.fst he)
      unfold folderLookup
      rw [List.find?_cons_of_neg _ (by simp [hne])]
      exact ih (List.nodup_cons.mp hnd).2 he

theorem readLinks_map_fst (folder ls : List (ℕ × OptimizerResult))
    (h : ∀ e ∈ ls, folderLookup folder e.1 = some e.2) :
    readLinks folder (ls.map Prod.fst) = some (ls.map Prod.snd) := by
  induction ls with
  | nil => rfl
  | cons hd tl ih =>
    have hhd := h hd (List.mem_cons_self hd tl)
    have htl := ih (fun e he => h e (List.mem_cons_of_mem hd he))
    simp [readLinks, hhd, htl]

theorem get_full_vector_fix (p : Problem) (i : ℕ) (v : ℚ) (xr : List ℚ)
    (hi : i < p.dim_full) :
    ((p.fix_parameter i v).get_full_vector xr).getD i 0 = v := by
  have hdim : (p.fix_parameter i v).dim_full = p.dim_full := rfl
  rw [Problem.get_full_vector, List.getD_eq_getElem?_getD, List.getElem?_map,
    hdim, List.getElem?_range hi]
  simp [Problem.fix_parameter, List.lookup]

/-! The claim theorems. -/

/-- C1: writing a `Result` holding optimization, profiling and sampling
results to HDF5 storage with `write_result` and reading the file back with
`read_result` yields a result whose optimization, profile and sample parts
equal those of the original, while the objective function itself is not
persisted (the reloaded problem carries the non-evaluable placeholder
objective). -/
theorem store_write_read_roundtrip (r : Result) :
    (read_result (write_result r true true true true)).optimize_result
        = r.optimize_result ∧
      (read_result (write_result r true true true true)).profile_result
        = r.profile_result ∧
      (read_result (write_result r true true true true)).sample_result
        = r.sample_result ∧
      (read_result (write_result r true true true true)).problem.obj_fval
        = dummyObjectiveFval :=
  ⟨rfl, rfl, rfl, rfl⟩

/-- C9: the two ways of constructing a `pypesto.Objective` are equivalent —
for every input vector and every requested set of sensitivity orders, the
objective built from separate callables `fun=f, grad=g, hess=h` and the
objective built from the single callable returning the tuple
`(f x, g x, h x)` with `grad=True, hess=True` return identical objective
value, gradient and Hessian. -/
theorem objective_separated_eq_combined (f : List ℚ → ℚ)
    (g : List ℚ → List ℚ) (h : List ℚ → List (List ℚ)) (x : List ℚ)
    (sensi_orders : List ℕ) :
    Objective.callSeparated f g h x sensi_orders
      = Objective.callCombined (fun y => (f y, g y, h y)) x sensi_orders :=
  rfl

/-- C8: `Problem.get_reduced_vector` returns a vector whose length equals the
number of free (estimated) parameters and whose entries are exactly the
input's entries at the free indices, in order; `check_grad` accepts this
reduced vector without dimension mismatch. -/
theorem get_reduced_vector_spec (p : Problem) (x : List ℚ) :
    (p.get_reduced_vector x).length = p.x_free_indices.length ∧
      (∀ k : ℕ, (p.get_reduced_vector x)[k]?
        = (p.x_free_indices[k]?).map (fun i => x.getD i 0)) ∧
      (p.check_grad (p.get_reduced_vector x)).isSome = true := by
  refine ⟨List.length_map _ _, fun k => ?_, ?_⟩
  · rw [Problem.get_reduced_vector, List.getElem?_map]
  · simp [Problem.check_grad, Problem.get_reduced_vector]

/-- C2: after a multi-start optimization the collected per-start results are
sorted by objective value — `OptimizeResult.sort` permutes the result list
into one whose `fval` sequence is monotonically non-decreasing, and
`optimize.minimize` (for any engine) ends with such a sorted list. -/
theorem optimize_result_sorted_by_fval (l : List OptimizerResult)
    (execute : (List ℚ → OptimizerResult) → List (List ℚ) →
      List OptimizerResult)
    (run : List ℚ → OptimizerResult) (startpoints : List (List ℚ)) :
    List.Sorted (fun a b => fpLeB a b = true)
        ((OptimizeResult.sort l).map OptimizerResult.fval) ∧
      (OptimizeResult.sort l).Perm l ∧
      List.Sorted (fun a b => fpLeB a b = true)
        ((minimizeWith execute run startpoints).map OptimizerResult.fval) :=
  ⟨List.pairwise_map.mpr (List.sorted_insertionSort byFval l),
    List.perm_insertionSort byFval l,
    List.pairwise_map.mpr (List.sorted_insertionSort byFval _)⟩

/-- C5: multi-start optimization is engine-independent — for every chunking,
optimizer behaviour `run` (a function of the startpoint alone, since starts
are independent) and fixed list of startpoints, `minimize` run through the
multi-process engine returns exactly the sorted result list of the
single-core engine. -/
theorem minimize_engine_independent (chunk_size : ℕ)
    (run : List ℚ → OptimizerResult) (startpoints : List (List ℚ)) :
    minimizeWith (MultiProcessEngine.execute chunk_size) run startpoints
      = minimizeWith SingleCoreEngine.execute run startpoints := by
  unfold minimizeWith MultiProcessEngine.execute SingleCoreEngine.execute
  rw [← List.map_flatten, chunksOf_flatten]

/-- C6: at every point of a computed likelihood profile for parameter `i`,
the profiled parameter is held fixed at its grid value — whatever reduced
vector the inner re-optimization returns, entry `i` of the profile point
equals the grid value, so the inner re-optimization never changes it. -/
theorem profile_fixes_profiled_parameter (p : Problem) (i : ℕ)
    (grid : List ℚ) (inner_opt : Problem → List ℚ) (hi : i < p.dim_full)
    (k : ℕ) (hk : k < grid.length) :
    ((parameter_profile p i grid inner_opt).x_path.getD k []).getD i 0
      = grid.getD k 0 := by
  have hpath : (parameter_profile p i grid inner_opt).x_path
      = grid.map (fun v => profilePoint p i v inner_opt) := rfl
  have hel : (grid.map (fun v => profilePoint p i v inner_opt)).getD k []
      = profilePoint p i (grid[k]) inner_opt := by
    rw [List.getD_eq_getElem?_getD (grid.map _) k, List.getElem?_map,
      List.getElem?_eq_getElem hk]
    simp only [Option.map_some', Option.getD_some]
  have hg : grid.getD k 0 = grid[k] := by
    rw [List.getD_eq_getElem?_getD grid k, List.getElem?_eq_getElem hk,
      Option.getD_some]
  rw [hpath, hel, hg]
  exact get_full_vector_fix p i (grid[k])
    (inner_opt (p.fix_parameter i (grid[k]))) hi

/-- Witness for C6 at a concrete two-parameter problem, profiling parameter
0 on the one-point grid `[5]` with an inner optimizer returning `[7]`. -/
theorem profile_fixes_profiled_parameter_witness :
    ((parameter_profile
        { dim_full := 2, x_fixed_indices := [], x_fixed_vals := []
          obj_fval := fun _ => FpVal.finite 0, obj_grad := fun _ => [] }
        0 [5] (fun _ => [7])).x_path.getD 0 []).getD 0 0 = [(5 : ℚ)].getD 0 0 :=
  profile_fixes_profiled_parameter
    { dim_full := 2, x_fixed_indices := [], x_fixed_vals := []
      obj_fval := fun _ => FpVal.finite 0, obj_grad := fun _ => [] }
    0 [5] (fun _ => [7]) (by decide) 0 (by decide)

/-- C3: when the startpoint-checking options are enabled, every startpoint
returned by `Problem.get_startpoints` satisfies the enabled finiteness
checks — with `check_fval` the objective value at the point is finite, and
with `check_grad` every gradient entry is finite; candidates violating an
enabled check were discarded and never appear among the `n_starts` returned
points. -/
theorem get_startpoints_pass_checks (p : Problem) (opts : StartpointOptions)
    (n_starts : ℕ) (propose : ℕ → List ℚ) (fuel : ℕ) (pts : List (List ℚ))
    (hget : p.get_startpoints opts n_starts propose fuel = some pts) :
    pts.length = n_starts ∧
      ∀ x ∈ pts,
        (opts.check_fval = true → (p.obj_fval x).isFinite = true) ∧
        (opts.check_grad = true →
          ∀ g ∈ p.obj_grad x, g.isFinite = true) := by
  simp only [Problem.get_startpoints] at hget
  split at hget
  case isFalse => exact absurd hget (by simp)
  case isTrue hlen =>
    have hpts := (Option.some.injEq _ _).mp hget
    subst hpts
    refine ⟨hlen, fun x hx => ?_⟩
    have hmem := List.mem_of_mem_take hx
    have hpass := (List.mem_filter.mp hmem).2
    rw [passesChecks, Bool.and_eq_true] at hpass
    constructor
    · intro hcf
      have h1 := hpass.1
      rw [hcf] at h1
      simpa using h1
    · intro hcg
      have h2 := hpass.2
      rw [hcg] at h2
      simp only [Bool.not_true, Bool.false_or, List.all_eq_true] at h2
      exact h2

/-- Witness for C3: a one-parameter problem whose objective is non-finite
exactly at the origin; with both checks enabled and candidates `[0], [1],
[2]` proposed, the two returned startpoints are `[1]` and `[2]`. -/
theorem get_startpoints_pass_checks_witness :
    ([[(1 : ℚ)], [(2 : ℚ)]].length = 2 ∧
      ∀ x ∈ [[(1 : ℚ)], [(2 : ℚ)]],
        (true = true →
          ((fun y : List ℚ =>
            if y.getD 0 0 = 0 then FpVal.nonfinite else FpVal.finite 1) x).isFinite
              = true) ∧
        (true = true →
          ∀ g ∈ (fun _ : List ℚ => [FpVal.finite 2]) x,
            g.isFinite = true)) :=
  get_startpoints_pass_checks
    { dim_full := 1, x_fixed_indices := [], x_fixed_vals := []
      obj_fval := fun y =>
        if y.getD 0 0 = 0 then FpVal.nonfinite else FpVal.finite 1
      obj_grad := fun _ => [FpVal.finite 2] }
    { check_fval := true, check_grad := true }
    2 (fun n => [(n : ℚ)]) 3 [[(1 : ℚ)], [(2 : ℚ)]] (by decide)

/-- Whether an `Except` value is an error. -/
def exceptIsError {α : Type} : Except String α → Bool
  | .error _ => true
  | .ok _ => false

theorem exceptIsError_map {α β : Type} (f : α → β) (e : Except String α) :
    exceptIsError (e.map f) = exceptIsError e := by
  cases e <;> rfl

/-- C4: the multi-start run raises an error if and only if some local
optimization start fails and `allow_failed_starts` is off; with
`allow_failed_starts` on, a failing start does not abort the run and every
start (the failing ones included, recorded with non-finite `fval`) is
collected into the result list. -/
theorem minimize_error_iff_failed_start (allow_failed_starts : Bool)
    (outcomes : List (ℕ × StartOutcome)) :
    (exceptIsError (collectStarts allow_failed_starts outcomes) = true ↔
        allow_failed_starts = false ∧
          ∃ e ∈ outcomes, e.2.isFailure = true) ∧
      (allow_failed_starts = true →
        ∃ l, collectStarts allow_failed_starts outcomes = .ok l ∧
          l.length = outcomes.length) := by
  induction outcomes with
  | nil =>
    refine ⟨by simp [collectStarts, exceptIsError], fun _ => ⟨[], rfl, rfl⟩⟩
  | cons hd tl ih =>
    obtain ⟨ih1, ih2⟩ := ih
    obtain ⟨idx, o⟩ := hd
    cases o with
    | success r =>
      constructor
      · rw [collectStarts, exceptIsError_map, ih1]
        simp [StartOutcome.isFailure]
      · intro ha
        obtain ⟨l, hok, hlen⟩ := ih2 ha
        exact ⟨r :: l, by rw [collectStarts, hok]; rfl, by simp [hlen]⟩
    | failure msg =>
      cases allow_failed_starts with
      | true =>
        constructor
        · rw [collectStarts, if_pos rfl, exceptIsError_map, ih1]
          simp
        · intro _
          obtain ⟨l, hok, hlen⟩ := ih2 rfl
          exact ⟨failedStartResult idx :: l,
            by rw [collectStarts, if_pos rfl, hok]; rfl, by simp [hlen]⟩
      | false =>
        constructor
        · rw [collectStarts]
          simp [exceptIsError, StartOutcome.isFailure]
        · intro hcontra; cases hcontra


/-- Witness for C4: with one failing start, the run errors when
`allow_failed_starts` is off and still collects one result entry when it is
on. -/
theorem minimize_error_iff_failed_start_witness :
    exceptIsError (collectStarts false [(0, StartOutcome.failure "fail")])
        = true ∧
      ∃ l, collectStarts true [(0, StartOutcome.failure "fail")]
          = .ok l ∧ l.length = 1 :=
  ⟨(minimize_error_iff_failed_start false [(0, .failure "fail")]).1.mpr
      ⟨rfl, (0, .failure "fail"), List.mem_cons_self _ _, rfl⟩,
    (minimize_error_iff_failed_start true [(0, .failure "fail")]).2 rfl⟩

/-- C7: with a parallelization engine and the HDF5 output file
`my_results.hdf5`, the storage layer names the per-start sub-file of start
`i` `my_results/my_results_i.hdf5` inside the folder named after the stem
of the output filename; the parent file holds the combined result by
linking to those sub-files — reading it back yields exactly the per-start
results — and it ceases to function (reads as nothing) once the sub-file
folder is deleted. -/
theorem subFileName_my_results (i : ℕ) :
    subFileName "my_results.hdf5" i
      = "my_results/my_results_" ++ Nat.repr i ++ ".hdf5" := by
  have hpre : fileStem "my_results.hdf5" ++ "/"
      ++ fileStem "my_results.hdf5" ++ "_" = "my_results/my_results_" := by
    decide
  unfold subFileName
  rw [hpre]

theorem per_start_storage_spec (results : List OptimizerResult) (i : ℕ) :
    subFileName "my_results.hdf5" i
        = "my_results/my_results_" ++ Nat.repr i ++ ".hdf5" ∧
      readCombined (writeWithEngine results) = some results ∧
      (results ≠ [] →
        readCombined (deleteFolder (writeWithEngine results)) = none) := by
  refine ⟨subFileName_my_results i, ?_, ?_⟩
  · have hnd : (results.enum.map Prod.fst).Nodup := by
      rw [List.enum_map_fst]; exact List.nodup_range _
    have h := readLinks_map_fst results.enum results.enum
      (folderLookup_of_mem results.enum hnd)
    rw [List.enum_map_snd] at h
    exact h
  · intro hne
    cases results with
    | nil => exact absurd rfl hne
    | cons r rs =>
      show readLinks [] (((r :: rs).enum).map Prod.fst) = none
      rw [List.enum_cons]
      rfl

/-- Witness for C7 at a single-start result list and start index 7. -/
theorem per_start_storage_spec_witness :
    subFileName "my_results.hdf5" 7 = "my_results/my_results_7.hdf5" ∧
      readCombined (writeWithEngine
          [{ start_index := 0, x := [1], fval := FpVal.finite 3 }])
        = some [{ start_index := 0, x := [1], fval := FpVal.finite 3 }] ∧
      readCombined (deleteFolder (writeWithEngine
          [{ start_index := 0, x := [1], fval := FpVal.finite 3 }])) = none := by
  obtain ⟨h1, h2, h3⟩ := per_start_storage_spec
    [{ start_index := 0, x := [1], fval := FpVal.finite 3 }] 7
  exact ⟨by rw [h1]; rfl, h2, h3 (by simp)⟩

/-- C10: round trip of the dynesty sampler state — when
`save_internal_sampler` writes a sampler's internal state to a file, a fresh
`DynestySampler` (whatever its own configuration) on which
`restore_internal_sampler` is called with that file returns the same
results from both `get_original_samples` and `get_samples` as the saving
sampler. -/
theorem dynesty_save_restore_roundtrip (s fresh : DynestySampler)
    (f : DynestyFile) (hsave : s.save_internal_sampler = some f) :
    (fresh.restore_internal_sampler f).get_original_samples
        = s.get_original_samples ∧
      (fresh.restore_internal_sampler f).get_samples = s.get_samples := by
  obtain ⟨internal, kwargs⟩ := s
  cases internal with
  | none => simp [DynestySampler.save_internal_sampler] at hsave
  | some st =>
    simp only [DynestySampler.save_internal_sampler, Option.map_some',
      Option.some.injEq] at hsave
    subst hsave
    exact ⟨rfl, rfl⟩

/-- Witness for C10: a sampler holding two nested samples is saved and
restored into a fresh sampler with different configuration. -/
theorem dynesty_save_restore_roundtrip_witness :
    (DynestySampler.restore_internal_sampler
          { internal := none, run_kwargs := [] }
          (DynestyInternalSampler.encode
            { samples := [[1], [2]], logwt := [0, 3] })).get_original_samples
        = ({ internal := some { samples := [[1], [2]], logwt := [0, 3] }
             run_kwargs := [("seed", 5)] } : DynestySampler).get_original_samples ∧
      (DynestySampler.restore_internal_sampler
          { internal := none, run_kwargs := [] }
          (DynestyInternalSampler.encode
            { samples := [[1], [2]], logwt := [0, 3] })).get_samples
        = ({ internal := some { samples := [[1], [2]], logwt := [0, 3] }
             run_kwargs := [("seed", 5)] } : DynestySampler).get_samples :=
  dynesty_save_restore_roundtrip
    { internal := some { samples := [[1], [2]], logwt := [0, 3] }
      run_kwargs := [("seed", 5)] }
    { internal := none, run_kwargs := [] }
    (DynestyInternalSampler.encode { samples := [[1], [2]], logwt := [0, 3] })
    rfl

end PyPesto
